import Mathlib

/-!
Shallow embedding of the jsonfilter repository's `filter` package
(src/filter/filter.go): JSON value trees, the path-to-command resolver
(`getFilterCommand` / `getFilterCommandRec`) and the string-leaf traversal
(`traverseWithPath` / `traverseMap` / `traverseSlice`), together with the
theorems settling the specification claims.

Modelling notes.
* Go's `interface{}` JSON values become the mutually inductive `JVal`
  (objects as ordered association lists; Go map iteration order is
  unspecified, so the list order stands for one admissible iteration
  order).  The numeric payload is opaque to the whole program (numbers
  are never inspected, only carried), so it is embedded as `Int`.
* Fallible code (`(T, error)` returns) becomes `Except ε`, with the error
  type `ε` abstract.
* The external filter-execution collaborator (`FilterRunner`, defaulting
  to `commandLineFilterRunner`, which spawns a process) is abstracted as
  a function `String → String → Except ε String` passed in.
* `getFilterCommandRec` returns `(interface{}, bool)` where the value is
  `nil` exactly when the flag is `false`; this pair is embedded as
  `Option JVal`.
-/

namespace Jsonfilter

mutual
inductive JVal : Type where
  | str : String → JVal
  | num : Int → JVal
  | bool : Bool → JVal
  | null : JVal
  | arr : JArr → JVal
  | obj : JObj → JVal

inductive JArr : Type where
  | nil : JArr
  | cons : JVal → JArr → JArr

inductive JObj : Type where
  | nil : JObj
  | cons : String → JVal → JObj → JObj
end

deriving instance DecidableEq for JVal

deriving instance DecidableEq for Except

/-- Length of an embedded JSON array (Go `len(s)`). -/
def JArr.length : JArr → Nat
  | .nil => 0
  | .cons _ rest => rest.length + 1

/-- Indexing into an embedded JSON array (Go `s[i]`, guarded). -/
def JArr.get? : JArr → Nat → Option JVal
  | .nil, _ => none
  | .cons v _, 0 => some v
  | .cons _ rest, n + 1 => rest.get? n

/-- In-place update of an array slot (Go `s[i] = w`). -/
def JArr.set : JArr → Nat → JVal → JArr
  | .nil, _, _ => .nil
  | .cons _ rest, 0, w => .cons w rest
  | .cons v rest, n + 1, w => .cons v (rest.set n w)

/-- Map lookup (Go `m[key]`, comma-ok form). -/
def JObj.find? : JObj → String → Option JVal
  | .nil, _ => none
  | .cons k v rest, key => if k = key then some v else rest.find? key

/-- In-place map update (Go `m[key] = w`; keys are unique). -/
def JObj.update : JObj → String → JVal → JObj
  | .nil, _, _ => .nil
  | .cons k v rest, key, w =>
    if k = key then .cons k w rest else .cons k v (rest.update key w)

/-- The apostrophe character, used to quote object keys in paths. -/
def quoteChar : Char := Char.ofNat 39

/-- Go `strings.Trim(s, "'")`: strip leading and trailing apostrophes. -/
def trimQuotes (s : String) : String :=
  String.mk (((s.toList.dropWhile (fun c => c = quoteChar)).reverse.dropWhile
    (fun c => c = quoteChar)).reverse)

/-- The separator predicate used on paths: `r == '[' || r == ']'`. -/
def isBracket (c : Char) : Bool := c = '[' || c = ']'

/-- Worker for `fieldsFunc`; `acc` holds the current field, reversed. -/
def fieldsAux (f : Char → Bool) : List Char → List Char → List String
  | [], acc => if acc.isEmpty then [] else [String.mk acc.reverse]
  | c :: cs, acc =>
    if f c then
      if acc.isEmpty then fieldsAux f cs []
      else String.mk acc.reverse :: fieldsAux f cs []
    else fieldsAux f cs (c :: acc)

/-- Go `strings.FieldsFunc`: split at separator characters, dropping empty
fields. -/
def fieldsFunc (s : String) (f : Char → Bool) : List String :=
  fieldsAux f s.toList []

/-- Decimal digit value of a character, if it is one (`0x30`–`0x39`). -/
def digitVal (c : Char) : Option Nat :=
  if 48 ≤ c.toNat ∧ c.toNat ≤ 57 then some (c.toNat - 48) else none

/-- Accumulate decimal digits left to right; fails on a non-digit. -/
def parseNatAux : List Char → Nat → Option Nat
  | [], acc => some acc
  | c :: cs, acc =>
    match digitVal c with
    | some d => parseNatAux cs (acc * 10 + d)
    | none => none

/-- Largest value representable in a signed 32-bit integer. -/
def int32Max : Int := 2 ^ 31 - 1

/-- Smallest value representable in a signed 32-bit integer. -/
def int32Min : Int := -(2 ^ 31)

/-- Go `strconv.ParseInt(key, 10, 32)`: optional sign, at least one decimal
digit, value required to fit in 32 signed bits; `none` stands for a non-nil
error. -/
def parseInt32 (s : String) : Option Int :=
  match s.toList with
  | [] => none
  | c :: cs =>
    let signed : Bool × List Char :=
      if c = '-' then (true, cs) else if c = '+' then (false, cs) else (false, c :: cs)
    match signed.2 with
    | [] => none
    | d :: ds =>
      match parseNatAux (d :: ds) 0 with
      | some n =>
        let v : Int := if signed.1 then -(n : Int) else (n : Int)
        if int32Min ≤ v ∧ v ≤ int32Max then some v else none
      | none => none

/-- Little-endian decimal digits of `n`, with explicit fuel (called with
`fuel = n`, which suffices since `n / 10 < n` for `n > 0`). -/
def natDigitsAux : Nat → Nat → List Nat
  | _, 0 => []
  | 0, _ => []
  | fuel + 1, n => n % 10 :: natDigitsAux fuel (n / 10)

/-- Decimal rendering of a natural number (Go `fmt.Sprintf("%d", i)` for the
nonnegative slice indices produced by traversal). -/
def natToString (n : Nat) : String :=
  if n = 0 then "0"
  else String.mk ((natDigitsAux n n).reverse.map (fun d => Char.ofNat (48 + d)))

/-- Embedding of `getFilterCommandRec` (filter.go lines 253–281).  One path
segment is consumed per step; a `String` specification node matches
immediately; objects look up the trimmed key; arrays of length 1 broadcast,
longer (or empty) arrays require the trimmed key to parse as an in-bounds
index; all other nodes fail. -/
def getFilterCommandRec : List String → JVal → Option JVal
  | [], filters => some filters
  | k :: ks, filters =>
    let key := trimQuotes k
    match filters with
    | .str s => some (.str s)
    | .obj m =>
      match m.find? key with
      | some v => getFilterCommandRec ks v
      | none => none
    | .arr s =>
      match s with
      | .cons x .nil => getFilterCommandRec ks x
      | _ =>
        match parseInt32 key with
        | some i =>
          if 0 ≤ i then
            match s.get? i.toNat with
            | some v => getFilterCommandRec ks v
            | none => none
          else none
        | none => none
    | _ => none

/-- Embedding of `getFilterCommand` (filter.go lines 238–251): split the
path on brackets, resolve, and keep the result only if it is a string. -/
def getFilterCommand (path : String) (filters : JVal) : Option String :=
  match getFilterCommandRec (fieldsFunc path isBracket) filters with
  | some (.str c) => some c
  | _ => none

mutual
/-- Embedding of `traverseWithPath` (filter.go lines 320–330): visit string
leaves, recurse through maps and slices, return everything else unchanged. -/
def traverseWithPath {ε : Type} (visit : String → String → Except ε String) :
    JVal → String → Except ε JVal
  | .str s, path =>
    match visit path s with
    | .ok r => .ok (.str r)
    | .error e => .error e
  | .num n, _ => .ok (.num n)
  | .bool b, _ => .ok (.bool b)
  | .null, _ => .ok .null
  | .obj m, path =>
    match traverseMap visit m path with
    | .ok m2 => .ok (.obj m2)
    | .error e => .error e
  | .arr l, path =>
    match traverseSlice visit l path 0 with
    | .ok l2 => .ok (.arr l2)
    | .error e => .error e

/-- Embedding of `traverseMap` (filter.go lines 332–340): extend the path
with `['key']`, recurse, write back, stop on the first error. -/
def traverseMap {ε : Type} (visit : String → String → Except ε String) :
    JObj → String → Except ε JObj
  | .nil, _ => .ok .nil
  | .cons k v rest, path =>
    match traverseWithPath visit v (path ++ "['" ++ k ++ "']") with
    | .error e => .error e
    | .ok v2 =>
      match traverseMap visit rest path with
      | .error e => .error e
      | .ok rest2 => .ok (.cons k v2 rest2)

/-- Embedding of `traverseSlice` (filter.go lines 342–351): extend the path
with `[index]`, recurse, write back, stop on the first error. -/
def traverseSlice {ε : Type} (visit : String → String → Except ε String) :
    JArr → String → Nat → Except ε JArr
  | .nil, _, _ => .ok .nil
  | .cons v rest, path, i =>
    match traverseWithPath visit v (path ++ "[" ++ natToString i ++ "]") with
    | .error e => .error e
    | .ok v2 =>
      match traverseSlice visit rest path (i + 1) with
      | .error e => .error e
      | .ok rest2 => .ok (.cons v2 rest2)
end

/-- Embedding of `traverse` (filter.go lines 316–318). -/
def traverse {ε : Type} (visit : String → String → Except ε String) (value : JVal) :
    Except ε JVal :=
  traverseWithPath visit value ""

/-- Embedding of `doRunFilter` (filter.go lines 210–222), with the filter
runner (collaborator) always supplied explicitly; `commandLineFilterRunner`,
the `nil` default, spawns an external process and is outside the pure core. -/
def doRunFilter {ε : Type} (path value : String) (filters : JVal)
    (filterRunner : String → String → Except ε String) : Except ε String :=
  match getFilterCommand path filters with
  | some command => filterRunner command value
  | none => .ok value

/-- Embedding of `doFilter` (filter.go lines 198–208) after the filter
specification has been loaded (`loadFilters` is embedded separately since
its `.json` branch reads a file). -/
def doFilter {ε : Type} (value : JVal) (filters : JVal)
    (filterRunner : String → String → Except ε String) : Except ε JVal :=
  traverse (fun path v => doRunFilter path v filters filterRunner) value

/-- Embedding of `loadFilters` (filter.go lines 308–314), with the file
system abstracted: a filter argument ending in `.json` is read as a JSON
file, anything else is itself the (string) specification. -/
def loadFilters {ε : Type} (filter : String)
    (readJsonFromFile : String → Except ε JVal) : Except ε JVal :=
  if List.take 5 filter.toList.reverse = List.reverse (String.toList ".json") then
    readJsonFromFile filter
  else
    .ok (.str filter)

mutual
/-- Instrumented variant of `traverseWithPath` that additionally records, in
visitation order, every `(path, value)` pair handed to the visitor.  Its
second component agrees with `traverseWithPath` (proved below); the log makes
the fail-fast behaviour of the Go loops (`break` on the first error)
observable. -/
def traverseLogVal {ε : Type} (visit : String → String → Except ε String) :
    JVal → String → List (String × String) × Except ε JVal
  | .str s, path =>
    ([(path, s)],
      match visit path s with
      | .ok r => .ok (.str r)
      | .error e => .error e)
  | .num n, _ => ([], .ok (.num n))
  | .bool b, _ => ([], .ok (.bool b))
  | .null, _ => ([], .ok .null)
  | .obj m, path =>
    match traverseLogObj visit m path with
    | (log, .ok m2) => (log, .ok (.obj m2))
    | (log, .error e) => (log, .error e)
  | .arr l, path =>
    match traverseLogArr visit l path 0 with
    | (log, .ok l2) => (log, .ok (.arr l2))
    | (log, .error e) => (log, .error e)

/-- Instrumented variant of `traverseMap`. -/
def traverseLogObj {ε : Type} (visit : String → String → Except ε String) :
    JObj → String → List (String × String) × Except ε JObj
  | .nil, _ => ([], .ok .nil)
  | .cons k v rest, path =>
    match traverseLogVal visit v (path ++ "['" ++ k ++ "']") with
    | (log1, .error e) => (log1, .error e)
    | (log1, .ok v2) =>
      match traverseLogObj visit rest path with
      | (log2, .error e) => (log1 ++ log2, .error e)
      | (log2, .ok rest2) => (log1 ++ log2, .ok (.cons k v2 rest2))

/-- Instrumented variant of `traverseSlice`. -/
def traverseLogArr {ε : Type} (visit : String → String → Except ε String) :
    JArr → String → Nat → List (String × String) × Except ε JArr
  | .nil, _, _ => ([], .ok .nil)
  | .cons v rest, path, i =>
    match traverseLogVal visit v (path ++ "[" ++ natToString i ++ "]") with
    | (log1, .error e) => (log1, .error e)
    | (log1, .ok v2) =>
      match traverseLogArr visit rest path (i + 1) with
      | (log2, .error e) => (log1 ++ log2, .error e)
      | (log2, .ok rest2) => (log1 ++ log2, .ok (.cons v2 rest2))
end

/-- Instrumented variant of `doFilter`: same computation, plus the log of
string-leaf visits. -/
def doFilterLog {ε : Type} (value : JVal) (filters : JVal)
    (filterRunner : String → String → Except ε String) :
    List (String × String) × Except ε JVal :=
  traverseLogVal (fun path v => doRunFilter path v filters filterRunner) value ""

/-- Restriction of a visit log to the calls actually forwarded to the
filter-execution collaborator: the entries whose path resolves to a command,
paired as `(command, value)`. -/
def afCallsOf (filters : JVal) (log : List (String × String)) :
    List (String × String) :=
  log.filterMap (fun pr => (getFilterCommand pr.1 filters).map (fun c => (c, pr.2)))

/-- State-passing rendering of `getFilterCommandRec` (filter.go lines
253–281): every read of the specification tree is made explicit and the
possibly-updated subtree is written back where Go's reference semantics
would alias it.  The source contains no assignment to the specification, so
this embedding returns it unchanged (proved below). -/
def getFilterCommandRecSt : List String → JVal → Option JVal × JVal
  | [], filters => (some filters, filters)
  | k :: ks, filters =>
    let key := trimQuotes k
    match filters with
    | .str s => (some (.str s), .str s)
    | .obj m =>
      match m.find? key with
      | some v =>
        match getFilterCommandRecSt ks v with
        | (r, v2) => (r, .obj (m.update key v2))
      | none => (none, .obj m)
    | .arr s =>
      match s with
      | .cons x .nil =>
        match getFilterCommandRecSt ks x with
        | (r, x2) => (r, .arr (.cons x2 .nil))
      | _ =>
        match parseInt32 key with
        | some i =>
          if 0 ≤ i then
            match s.get? i.toNat with
            | some v =>
              match getFilterCommandRecSt ks v with
              | (r, v2) => (r, .arr (s.set i.toNat v2))
            | none => (none, .arr s)
          else (none, .arr s)
        | none => (none, .arr s)
    | other => (none, other)

mutual
/-- Modelled from the spec (§4.2): the intended result of a fully successful
pass is "the same tree it was given with every matched `String` leaf replaced
by the string `ApplyFilter` returned".  `g path leaf` is the replacement for
the leaf at `path` (identity where no command matches). -/
def mapLeavesWithPath (g : String → String → String) : JVal → String → JVal
  | .str s, path => .str (g path s)
  | .num n, _ => .num n
  | .bool b, _ => .bool b
  | .null, _ => .null
  | .obj m, path => .obj (mapLeavesObj g m path)
  | .arr l, path => .arr (mapLeavesArr g l path 0)

/-- Object part of `mapLeavesWithPath`. -/
def mapLeavesObj (g : String → String → String) : JObj → String → JObj
  | .nil, _ => .nil
  | .cons k v rest, path =>
    .cons k (mapLeavesWithPath g v (path ++ "['" ++ k ++ "']")) (mapLeavesObj g rest path)

/-- Array part of `mapLeavesWithPath`. -/
def mapLeavesArr (g : String → String → String) : JArr → String → Nat → JArr
  | .nil, _, _ => .nil
  | .cons v rest, path, i =>
    .cons (mapLeavesWithPath g v (path ++ "[" ++ natToString i ++ "]"))
      (mapLeavesArr g rest path (i + 1))
end

mutual
/-- Erase every string payload of a tree.  Two trees with the same mask agree
on everything except the contents of string leaves: same shape, same keys,
same numbers, booleans and nulls in the same places. -/
def maskStrings : JVal → JVal
  | .str _ => .str ""
  | .num n => .num n
  | .bool b => .bool b
  | .null => .null
  | .obj m => .obj (maskObj m)
  | .arr l => .arr (maskArr l)

/-- Object part of `maskStrings`. -/
def maskObj : JObj → JObj
  | .nil => .nil
  | .cons k v rest => .cons k (maskStrings v) (maskObj rest)

/-- Array part of `maskStrings`. -/
def maskArr : JArr → JArr
  | .nil => .nil
  | .cons v rest => .cons (maskStrings v) (maskArr rest)
end

theorem JObj.update_find_self : ∀ (m : JObj) (key : String) (v : JVal),
    m.find? key = some v → m.update key v = m
  | .nil, key, v => by simp [JObj.find?]
  | .cons k w rest, key, v => by
    by_cases hk : k = key
    · subst hk
      intro h
      simp [JObj.find?] at h
      simp [JObj.update, h]
    · intro h
      simp [JObj.find?, hk] at h
      simp [JObj.update, hk, JObj.update_find_self rest key v h]

theorem JArr.set_get_self : ∀ (s : JArr) (n : Nat) (v : JVal),
    s.get? n = some v → s.set n v = s
  | .nil, n, v => by simp [JArr.get?]
  | .cons w rest, 0, v => by
    intro h
    simp [JArr.get?] at h
    simp [JArr.set, h]
  | .cons w rest, n + 1, v => by
    intro h
    simp [JArr.get?] at h
    simp [JArr.set, JArr.set_get_self rest n v h]

theorem getFilterCommandRecSt_eq : ∀ (keys : List String) (filters : JVal),
    getFilterCommandRecSt keys filters = (getFilterCommandRec keys filters, filters)
  | [], filters => rfl
  | k :: ks, filters => by
    cases filters with
    | str s => simp [getFilterCommandRecSt, getFilterCommandRec]
    | num n => simp [getFilterCommandRecSt, getFilterCommandRec]
    | bool b => simp [getFilterCommandRecSt, getFilterCommandRec]
    | null => simp [getFilterCommandRecSt, getFilterCommandRec]
    | obj m =>
      cases h : m.find? (trimQuotes k) with
      | none => simp [getFilterCommandRecSt, getFilterCommandRec, h]
      | some v =>
        have ih := getFilterCommandRecSt_eq ks v
        simp [getFilterCommandRecSt, getFilterCommandRec, h, ih,
          JObj.update_find_self m (trimQuotes k) v h]
    | arr s =>
      cases s with
      | nil =>
        cases hp : parseInt32 (trimQuotes k) with
        | none => simp [getFilterCommandRecSt, getFilterCommandRec, hp]
        | some i =>
          by_cases hi : 0 ≤ i
          · simp [getFilterCommandRecSt, getFilterCommandRec, hp, hi, JArr.get?]
          · simp [getFilterCommandRecSt, getFilterCommandRec, hp, hi]
      | cons x rest =>
        cases rest with
        | nil =>
          have ih := getFilterCommandRecSt_eq ks x
          simp [getFilterCommandRecSt, getFilterCommandRec, ih]
        | cons y r2 =>
          cases hp : parseInt32 (trimQuotes k) with
          | none => simp [getFilterCommandRecSt, getFilterCommandRec, hp]
          | some i =>
            by_cases hi : 0 ≤ i
            · cases hg : JArr.get? (.cons x (.cons y r2)) i.toNat with
              | none => simp [getFilterCommandRecSt, getFilterCommandRec, hp, hi, hg]
              | some v =>
                have ih := getFilterCommandRecSt_eq ks v
                simp [getFilterCommandRecSt, getFilterCommandRec, hp, hi, hg, ih,
                  JArr.set_get_self _ i.toNat v hg]
            · simp [getFilterCommandRecSt, getFilterCommandRec, hp, hi]

mutual
theorem traverseLogVal_snd {ε : Type} (visit : String → String → Except ε String) :
    ∀ (t : JVal) (path : String),
      (traverseLogVal visit t path).2 = traverseWithPath visit t path
  | .str s, path => by
    cases h : visit path s <;> simp [traverseLogVal, traverseWithPath, h]
  | .num n, path => by simp [traverseLogVal, traverseWithPath]
  | .bool b, path => by simp [traverseLogVal, traverseWithPath]
  | .null, path => by simp [traverseLogVal, traverseWithPath]
  | .obj m, path => by
    have ih := traverseLogObj_snd visit m path
    rcases h : traverseLogObj visit m path with ⟨log, r⟩
    rw [h] at ih
    cases r <;> simp [traverseLogVal, traverseWithPath, h, ← ih]
  | .arr l, path => by
    have ih := traverseLogArr_snd visit l path 0
    rcases h : traverseLogArr visit l path 0 with ⟨log, r⟩
    rw [h] at ih
    cases r <;> simp [traverseLogVal, traverseWithPath, h, ← ih]

theorem traverseLogObj_snd {ε : Type} (visit : String → String → Except ε String) :
    ∀ (m : JObj) (path : String),
      (traverseLogObj visit m path).2 = traverseMap visit m path
  | .nil, path => rfl
  | .cons k v rest, path => by
    have ihv := traverseLogVal_snd visit v (path ++ "['" ++ k ++ "']")
    have ihr := traverseLogObj_snd visit rest path
    rcases hv : traverseLogVal visit v (path ++ "['" ++ k ++ "']") with ⟨log1, r1⟩
    rw [hv] at ihv
    cases r1 with
    | error e => simp [traverseLogObj, traverseMap, hv, ← ihv]
    | ok v2 =>
      rcases hr : traverseLogObj visit rest path with ⟨log2, r2⟩
      rw [hr] at ihr
      cases r2 <;> simp [traverseLogObj, traverseMap, hv, hr, ← ihv, ← ihr]

theorem traverseLogArr_snd {ε : Type} (visit : String → String → Except ε String) :
    ∀ (l : JArr) (path : String) (i : Nat),
      (traverseLogArr visit l path i).2 = traverseSlice visit l path i
  | .nil, path, i => rfl
  | .cons v rest, path, i => by
    have ihv := traverseLogVal_snd visit v (path ++ "[" ++ natToString i ++ "]")
    have ihr := traverseLogArr_snd visit rest path (i + 1)
    rcases hv : traverseLogVal visit v (path ++ "[" ++ natToString i ++ "]") with ⟨log1, r1⟩
    rw [hv] at ihv
    cases r1 with
    | error e => simp [traverseLogArr, traverseSlice, hv, ← ihv]
    | ok v2 =>
      rcases hr : traverseLogArr visit rest path (i + 1) with ⟨log2, r2⟩
      rw [hr] at ihr
      cases r2 <;> simp [traverseLogArr, traverseSlice, hv, hr, ← ihv, ← ihr]
end

mutual
theorem traverseWithPath_allOk {ε : Type} (visit : String → String → Except ε String)
    (g : String → String → String) (hv : ∀ p v, visit p v = Except.ok (g p v)) :
    ∀ (t : JVal) (path : String),
      traverseWithPath visit t path = Except.ok (mapLeavesWithPath g t path)
  | .str s, path => by simp [traverseWithPath, mapLeavesWithPath, hv]
  | .num n, path => by simp [traverseWithPath, mapLeavesWithPath]
  | .bool b, path => by simp [traverseWithPath, mapLeavesWithPath]
  | .null, path => by simp [traverseWithPath, mapLeavesWithPath]
  | .obj m, path => by
    have ih := traverseMap_allOk visit g hv m path
    simp [traverseWithPath, mapLeavesWithPath, ih]
  | .arr l, path => by
    have ih := traverseSlice_allOk visit g hv l path 0
    simp [traverseWithPath, mapLeavesWithPath, ih]

theorem traverseMap_allOk {ε : Type} (visit : String → String → Except ε String)
    (g : String → String → String) (hv : ∀ p v, visit p v = Except.ok (g p v)) :
    ∀ (m : JObj) (path : String),
      traverseMap visit m path = Except.ok (mapLeavesObj g m path)
  | .nil, path => rfl
  | .cons k v rest, path => by
    have ihv := traverseWithPath_allOk visit g hv v (path ++ "['" ++ k ++ "']")
    have ihr := traverseMap_allOk visit g hv rest path
    simp [traverseMap, mapLeavesObj, ihv, ihr]

theorem traverseSlice_allOk {ε : Type} (visit : String → String → Except ε String)
    (g : String → String → String) (hv : ∀ p v, visit p v = Except.ok (g p v)) :
    ∀ (l : JArr) (path : String) (i : Nat),
      traverseSlice visit l path i = Except.ok (mapLeavesArr g l path i)
  | .nil, path, i => rfl
  | .cons v rest, path, i => by
    have ihv := traverseWithPath_allOk visit g hv v (path ++ "[" ++ natToString i ++ "]")
    have ihr := traverseSlice_allOk visit g hv rest path (i + 1)
    simp [traverseSlice, mapLeavesArr, ihv, ihr]
end

mutual
theorem traverseWithPath_mask {ε : Type} (visit : String → String → Except ε String) :
    ∀ (t : JVal) (path : String) (t2 : JVal),
      traverseWithPath visit t path = Except.ok t2 → maskStrings t2 = maskStrings t
  | .str s, path, t2 => by
    intro h
    simp only [traverseWithPath] at h
    cases hv : visit path s <;> rw [hv] at h
    · cases h
    · cases h
      simp [maskStrings]
  | .num n, path, t2 => by
    intro h
    simp only [traverseWithPath] at h
    cases h
    rfl
  | .bool b, path, t2 => by
    intro h
    simp only [traverseWithPath] at h
    cases h
    rfl
  | .null, path, t2 => by
    intro h
    simp only [traverseWithPath] at h
    cases h
    rfl
  | .obj m, path, t2 => by
    intro h
    simp only [traverseWithPath] at h
    cases hm : traverseMap visit m path <;> rw [hm] at h
    · cases h
    · cases h
      simp [maskStrings, traverseMap_mask visit m path _ hm]
  | .arr l, path, t2 => by
    intro h
    simp only [traverseWithPath] at h
    cases hl : traverseSlice visit l path 0 <;> rw [hl] at h
    · cases h
    · cases h
      simp [maskStrings, traverseSlice_mask visit l path 0 _ hl]

theorem traverseMap_mask {ε : Type} (visit : String → String → Except ε String) :
    ∀ (m : JObj) (path : String) (m2 : JObj),
      traverseMap visit m path = Except.ok m2 → maskObj m2 = maskObj m
  | .nil, path, m2 => by
    intro h
    cases h
    rfl
  | .cons k v rest, path, m2 => by
    intro h
    simp only [traverseMap] at h
    cases hv : traverseWithPath visit v (path ++ "['" ++ k ++ "']") <;> rw [hv] at h
    · cases h
    · cases hr : traverseMap visit rest path <;> rw [hr] at h
      · cases h
      · cases h
        simp [maskObj, traverseWithPath_mask visit v _ _ hv,
          traverseMap_mask visit rest path _ hr]

theorem traverseSlice_mask {ε : Type} (visit : String → String → Except ε String) :
    ∀ (l : JArr) (path : String) (i : Nat) (l2 : JArr),
      traverseSlice visit l path i = Except.ok l2 → maskArr l2 = maskArr l
  | .nil, path, i, l2 => by
    intro h
    cases h
    rfl
  | .cons v rest, path, i, l2 => by
    intro h
    simp only [traverseSlice] at h
    cases hv : traverseWithPath visit v (path ++ "[" ++ natToString i ++ "]") <;> rw [hv] at h
    · cases h
    · cases hr : traverseSlice visit rest path (i + 1) <;> rw [hr] at h
      · cases h
      · cases h
        simp [maskArr, traverseWithPath_mask visit v _ _ hv,
          traverseSlice_mask visit rest path (i + 1) _ hr]
end

mutual
theorem traverseLogVal_ok_calls {ε : Type} (visit : String → String → Except ε String) :
    ∀ (t : JVal) (path : String) (log : List (String × String)) (t2 : JVal),
      traverseLogVal visit t path = (log, Except.ok t2) →
      ∀ pr ∈ log, ∃ w, visit pr.1 pr.2 = Except.ok w
  | .str s, path, log, t2 => by
    intro h
    simp only [traverseLogVal] at h
    cases hv : visit path s <;> rw [hv] at h <;> cases h
    intro pr hpr
    simp at hpr
    subst hpr
    exact ⟨_, hv⟩
  | .num n, path, log, t2 => by
    intro h
    simp only [traverseLogVal] at h
    cases h
    intro pr hpr
    simp at hpr
  | .bool b, path, log, t2 => by
    intro h
    simp only [traverseLogVal] at h
    cases h
    intro pr hpr
    simp at hpr
  | .null, path, log, t2 => by
    intro h
    simp only [traverseLogVal] at h
    cases h
    intro pr hpr
    simp at hpr
  | .obj m, path, log, t2 => by
    intro h
    simp only [traverseLogVal] at h
    rcases hm : traverseLogObj visit m path with ⟨log0, r0⟩
    rw [hm] at h
    cases r0 with
    | error e0 => cases h
    | ok m2 =>
      cases h
      exact traverseLogObj_ok_calls visit m path log m2 hm
  | .arr l, path, log, t2 => by
    intro h
    simp only [traverseLogVal] at h
    rcases hl : traverseLogArr visit l path 0 with ⟨log0, r0⟩
    rw [hl] at h
    cases r0 with
    | error e0 => cases h
    | ok l2 =>
      cases h
      exact traverseLogArr_ok_calls visit l path 0 log l2 hl

theorem traverseLogObj_ok_calls {ε : Type} (visit : String → String → Except ε String) :
    ∀ (m : JObj) (path : String) (log : List (String × String)) (m2 : JObj),
      traverseLogObj visit m path = (log, Except.ok m2) →
      ∀ pr ∈ log, ∃ w, visit pr.1 pr.2 = Except.ok w
  | .nil, path, log, m2 => by
    intro h
    simp only [traverseLogObj] at h
    cases h
    intro pr hpr
    simp at hpr
  | .cons k v rest, path, log, m2 => by
    intro h
    simp only [traverseLogObj] at h
    rcases hv : traverseLogVal visit v (path ++ "['" ++ k ++ "']") with ⟨log1, r1⟩
    rw [hv] at h
    cases r1 with
    | error e1 => cases h
    | ok v2 =>
      rcases hr : traverseLogObj visit rest path with ⟨log2, r2⟩
      rw [hr] at h
      cases r2 with
      | error e2 => cases h
      | ok rest2 =>
        cases h
        intro pr hpr
        rcases List.mem_append.mp hpr with hpr1 | hpr2
        · exact traverseLogVal_ok_calls visit v _ log1 v2 hv pr hpr1
        · exact traverseLogObj_ok_calls visit rest path log2 rest2 hr pr hpr2

theorem traverseLogArr_ok_calls {ε : Type} (visit : String → String → Except ε String) :
    ∀ (l : JArr) (path : String) (i : Nat) (log : List (String × String)) (l2 : JArr),
      traverseLogArr visit l path i = (log, Except.ok l2) →
      ∀ pr ∈ log, ∃ w, visit pr.1 pr.2 = Except.ok w
  | .nil, path, i, log, l2 => by
    intro h
    simp only [traverseLogArr] at h
    cases h
    intro pr hpr
    simp at hpr
  | .cons v rest, path, i, log, l2 => by
    intro h
    simp only [traverseLogArr] at h
    rcases hv : traverseLogVal visit v (path ++ "[" ++ natToString i ++ "]") with ⟨log1, r1⟩
    rw [hv] at h
    cases r1 with
    | error e1 => cases h
    | ok v2 =>
      rcases hr : traverseLogArr visit rest path (i + 1) with ⟨log2, r2⟩
      rw [hr] at h
      cases r2 with
      | error e2 => cases h
      | ok rest2 =>
        cases h
        intro pr hpr
        rcases List.mem_append.mp hpr with hpr1 | hpr2
        · exact traverseLogVal_ok_calls visit v _ log1 v2 hv pr hpr1
        · exact traverseLogArr_ok_calls visit rest path (i + 1) log2 rest2 hr pr hpr2
end

mutual
theorem traverseLogVal_error_calls {ε : Type} (visit : String → String → Except ε String) :
    ∀ (t : JVal) (path : String) (log : List (String × String)) (e : ε),
      traverseLogVal visit t path = (log, Except.error e) →
      ∃ pre p s, log = pre ++ [(p, s)] ∧
        (∀ pr ∈ pre, ∃ w, visit pr.1 pr.2 = Except.ok w) ∧
        visit p s = Except.error e
  | .str s, path, log, e => by
    intro h
    simp only [traverseLogVal] at h
    cases hv : visit path s <;> rw [hv] at h <;> cases h
    exact ⟨[], path, s, rfl, by simp, hv⟩
  | .num n, path, log, e => by
    intro h
    simp only [traverseLogVal] at h
    cases h
  | .bool b, path, log, e => by
    intro h
    simp only [traverseLogVal] at h
    cases h
  | .null, path, log, e => by
    intro h
    simp only [traverseLogVal] at h
    cases h
  | .obj m, path, log, e => by
    intro h
    simp only [traverseLogVal] at h
    rcases hm : traverseLogObj visit m path with ⟨log0, r0⟩
    rw [hm] at h
    cases r0 with
    | error e0 =>
      cases h
      exact traverseLogObj_error_calls visit m path log e hm
    | ok m2 => cases h
  | .arr l, path, log, e => by
    intro h
    simp only [traverseLogVal] at h
    rcases hl : traverseLogArr visit l path 0 with ⟨log0, r0⟩
    rw [hl] at h
    cases r0 with
    | error e0 =>
      cases h
      exact traverseLogArr_error_calls visit l path 0 log e hl
    | ok l2 => cases h

theorem traverseLogObj_error_calls {ε : Type} (visit : String → String → Except ε String) :
    ∀ (m : JObj) (path : String) (log : List (String × String)) (e : ε),
      traverseLogObj visit m path = (log, Except.error e) →
      ∃ pre p s, log = pre ++ [(p, s)] ∧
        (∀ pr ∈ pre, ∃ w, visit pr.1 pr.2 = Except.ok w) ∧
        visit p s = Except.error e
  | .nil, path, log, e => by
    intro h
    simp only [traverseLogObj] at h
    cases h
  | .cons k v rest, path, log, e => by
    intro h
    simp only [traverseLogObj] at h
    rcases hv : traverseLogVal visit v (path ++ "['" ++ k ++ "']") with ⟨log1, r1⟩
    rw [hv] at h
    cases r1 with
    | error e1 =>
      cases h
      exact traverseLogVal_error_calls visit v _ log e hv
    | ok v2 =>
      rcases hr : traverseLogObj visit rest path with ⟨log2, r2⟩
      rw [hr] at h
      cases r2 with
      | error e2 =>
        cases h
        rcases traverseLogObj_error_calls visit rest path log2 e hr with
          ⟨pre2, p, s, hdec, hpre2, hfail⟩
        refine ⟨log1 ++ pre2, p, s, ?_, ?_, hfail⟩
        · rw [hdec, List.append_assoc]
        · intro pr hpr
          rcases List.mem_append.mp hpr with hpr1 | hpr2
          · exact traverseLogVal_ok_calls visit v _ log1 v2 hv pr hpr1
          · exact hpre2 pr hpr2
      | ok rest2 => cases h

theorem traverseLogArr_error_calls {ε : Type} (visit : String → String → Except ε String) :
    ∀ (l : JArr) (path : String) (i : Nat) (log : List (String × String)) (e : ε),
      traverseLogArr visit l path i = (log, Except.error e) →
      ∃ pre p s, log = pre ++ [(p, s)] ∧
        (∀ pr ∈ pre, ∃ w, visit pr.1 pr.2 = Except.ok w) ∧
        visit p s = Except.error e
  | .nil, path, i, log, e => by
    intro h
    simp only [traverseLogArr] at h
    cases h
  | .cons v rest, path, i, log, e => by
    intro h
    simp only [traverseLogArr] at h
    rcases hv : traverseLogVal visit v (path ++ "[" ++ natToString i ++ "]") with ⟨log1, r1⟩
    rw [hv] at h
    cases r1 with
    | error e1 =>
      cases h
      exact traverseLogVal_error_calls visit v _ log e hv
    | ok v2 =>
      rcases hr : traverseLogArr visit rest path (i + 1) with ⟨log2, r2⟩
      rw [hr] at h
      cases r2 with
      | error e2 =>
        cases h
        rcases traverseLogArr_error_calls visit rest path (i + 1) log2 e hr with
          ⟨pre2, p, s, hdec, hpre2, hfail⟩
        refine ⟨log1 ++ pre2, p, s, ?_, ?_, hfail⟩
        · rw [hdec, List.append_assoc]
        · intro pr hpr
          rcases List.mem_append.mp hpr with hpr1 | hpr2
          · exact traverseLogVal_ok_calls visit v _ log1 v2 hv pr hpr1
          · exact hpre2 pr hpr2
      | ok rest2 => cases h
end

theorem natDigitsAux_eq_digits : ∀ (fuel n : Nat), n ≤ fuel →
    natDigitsAux fuel n = Nat.digits 10 n
  | fuel, 0, _ => by cases fuel <;> simp [natDigitsAux]
  | 0, n + 1, h => by omega
  | fuel + 1, n + 1, h => by
    have hstep : natDigitsAux (fuel + 1) (n + 1)
        = (n + 1) % 10 :: natDigitsAux fuel ((n + 1) / 10) := by
      rw [natDigitsAux]
      omega
    rw [hstep, Nat.digits_def' (by norm_num : (1:ℕ) < 10) (Nat.succ_pos n)]
    congr 1
    exact natDigitsAux_eq_digits fuel ((n + 1) / 10) (by omega)

theorem digitVal_ofNat (d : Nat) (hd : d < 10) :
    digitVal (Char.ofNat (48 + d)) = some d := by
  interval_cases d <;> decide

theorem digitChar_ne_dash (d : Nat) (hd : d < 10) : Char.ofNat (48 + d) ≠ '-' := by
  interval_cases d <;> decide

theorem digitChar_ne_plus (d : Nat) (hd : d < 10) : Char.ofNat (48 + d) ≠ '+' := by
  interval_cases d <;> decide

theorem parseNatAux_digits : ∀ (L : List Nat) (acc : Nat), (∀ d ∈ L, d < 10) →
    parseNatAux (L.map (fun d => Char.ofNat (48 + d))) acc =
      some (L.foldl (fun a d => a * 10 + d) acc)
  | [], acc, _ => rfl
  | d :: L, acc, h => by
    rw [List.map_cons, parseNatAux, digitVal_ofNat d (h d (by simp))]
    exact parseNatAux_digits L (acc * 10 + d) (fun x hx => h x (by simp [hx]))

theorem foldr_eq_ofDigits : ∀ (L : List Nat),
    List.foldr (fun d a => a * 10 + d) 0 L = Nat.ofDigits 10 L
  | [] => by simp [Nat.ofDigits]
  | d :: L => by
    simp only [List.foldr, foldr_eq_ofDigits L, Nat.ofDigits_cons]
    ring

theorem parseInt32_natToString (n : Nat) :
    parseInt32 (natToString n) = if (n : Int) ≤ int32Max then some (n : Int) else none := by
  rcases Nat.eq_zero_or_pos n with rfl | hn
  · have h0 : ((0 : Nat) : Int) ≤ int32Max := by decide
    rw [if_pos h0]
    decide
  · have hfuel := natDigitsAux_eq_digits n n le_rfl
    have hne : Nat.digits 10 n ≠ [] := Nat.digits_ne_nil_iff_ne_zero.mpr (by omega)
    have hrevne : (Nat.digits 10 n).reverse ≠ [] := by
      simpa using hne
    rcases hR : (Nat.digits 10 n).reverse with _ | ⟨d, R⟩
    · exact absurd hR hrevne
    have hdig : ∀ x ∈ d :: R, x < 10 := by
      rw [← hR]
      intro x hx
      exact Nat.digits_lt_base (by norm_num) (List.mem_reverse.mp hx)
    have hd10 : d < 10 := hdig d (by simp)
    have hfold : List.foldl (fun a x => a * 10 + x) 0 (d :: R) = n := by
      rw [← hR, List.foldl_reverse]
      have : (fun x y => (fun a x => a * 10 + x) y x) = (fun x a => a * 10 + x) := rfl
      rw [this, foldr_eq_ofDigits, Nat.ofDigits_digits]
    have hstr : natToString n = String.mk ((d :: R).map (fun x => Char.ofNat (48 + x))) := by
      rw [natToString, if_neg (by omega : ¬ n = 0), hfuel, hR]
    rw [hstr]
    have htl : (String.mk ((d :: R).map (fun x => Char.ofNat (48 + x)))).toList =
        Char.ofNat (48 + d) :: R.map (fun x => Char.ofNat (48 + x)) := rfl
    rw [parseInt32]
    rw [htl]
    simp only [digitChar_ne_dash d hd10, digitChar_ne_plus d hd10, if_neg, ite_false,
      reduceCtorEq]
    have hpn : parseNatAux (Char.ofNat (48 + d) :: R.map (fun x => Char.ofNat (48 + x))) 0 =
        some n := by
      have := parseNatAux_digits (d :: R) 0 hdig
      rw [List.map_cons] at this
      rw [this, hfold]
    rw [hpn]
    have hmin : int32Min ≤ (n : Int) := by
      have : (0 : Int) ≤ (n : Int) := Int.ofNat_nonneg n
      rw [int32Min]
      omega
    by_cases hmax : (n : Int) ≤ int32Max
    · rw [if_pos hmax]
      simp [hmin, hmax]
    · rw [if_neg hmax]
      simp [hmax]

theorem trimQuotes_eq_self (s : String) (h : ∀ c ∈ s.toList, c ≠ quoteChar) :
    trimQuotes s = s := by
  rw [trimQuotes]
  have h1 : s.toList.dropWhile (fun c => c = quoteChar) = s.toList := by
    cases hs : s.toList with
    | nil => rfl
    | cons c cs =>
      rw [List.dropWhile_cons]
      have hc : c ≠ quoteChar := h c (by rw [hs]; simp)
      simp [hc]
  rw [h1]
  have h2 : s.toList.reverse.dropWhile (fun c => c = quoteChar) = s.toList.reverse := by
    cases hs : s.toList.reverse with
    | nil => rfl
    | cons c cs =>
      rw [List.dropWhile_cons]
      have hmem : c ∈ s.toList := by
        rw [← List.mem_reverse, hs]
        simp
      have hc : c ≠ quoteChar := h c hmem
      simp [hc]
  rw [h2, List.reverse_reverse]
  rfl

theorem natToString_chars (n : Nat) : ∀ c ∈ (natToString n).toList, c ≠ quoteChar := by
  rcases Nat.eq_zero_or_pos n with rfl | hn
  · intro c hc
    simp [natToString] at hc
    subst hc
    decide
  · rw [natToString, if_neg (by omega : ¬ n = 0)]
    intro c hc
    have htl : (String.mk ((natDigitsAux n n).reverse.map
        (fun d => Char.ofNat (48 + d)))).toList =
        (natDigitsAux n n).reverse.map (fun d => Char.ofNat (48 + d)) := rfl
    rw [htl] at hc
    rcases List.mem_map.mp hc with ⟨d, hd, rfl⟩
    have hd10 : d < 10 := by
      rw [natDigitsAux_eq_digits n n le_rfl] at hd
      exact Nat.digits_lt_base (by norm_num) (List.mem_reverse.mp hd)
    interval_cases d <;> decide

theorem trimQuotes_natToString (n : Nat) : trimQuotes (natToString n) = natToString n :=
  trimQuotes_eq_self _ (natToString_chars n)

theorem JArr.get?_isSome : ∀ (s : JArr) (i : Nat), i < s.length → ∃ v, s.get? i = some v
  | .nil, i, h => by simp [JArr.length] at h
  | .cons v rest, 0, _ => ⟨v, rfl⟩
  | .cons v rest, i + 1, h => by
    simp [JArr.length] at h
    exact JArr.get?_isSome rest i (by omega)

theorem JArr.get?_none : ∀ (s : JArr) (i : Nat), s.length ≤ i → s.get? i = none
  | .nil, i, _ => rfl
  | .cons v rest, 0, h => by simp [JArr.length] at h
  | .cons v rest, i + 1, h => by
    simp [JArr.length] at h
    exact JArr.get?_none rest i (by omega)

example : fieldsFunc "['a'][0]" isBracket = ["'a'", "0"] := by decide
example : trimQuotes "'a'" = "a" := by decide
example : trimQuotes "''" = "" := by decide
example : parseInt32 "0" = some 0 := by decide
example : parseInt32 "12" = some 12 := by decide
example : parseInt32 "'1'" = none := by decide
example : natToString 12 = "12" := by rfl
example :
    getFilterCommand "['a'][1]"
      (JVal.obj (.cons "a" (.arr (.cons (.str "C0") (.cons (.str "C1") .nil))) .nil)) =
    some "C1" := by decide
example :
    (doFilter (ε := Unit) (JVal.obj (.cons "a" (.str "hi") .nil))
      (JVal.obj (.cons "a" (.str "up") .nil))
      (fun c v => .ok (c ++ ":" ++ v))) =
    .ok (JVal.obj (.cons "a" (.str "up:hi") .nil)) := by decide

/-- C1: whenever resolution reaches a `String` specification node it returns
that exact string as the command, even if path segments remain unconsumed;
in particular resolving any path (of any shape or depth, including the empty
path) against a specification that is a single `String` node yields
`found = true` with that string. -/
theorem c1_string_spec_always_matches :
    (∀ (keys : List String) (s : String),
      getFilterCommandRec keys (JVal.str s) = some (JVal.str s)) ∧
    (∀ (path s : String), getFilterCommand path (JVal.str s) = some s) := by
  constructor
  · intro keys s
    cases keys <;> rfl
  · intro path s
    cases h : fieldsFunc path isBracket <;>
      simp [getFilterCommand, getFilterCommandRec, h]

/-- C3: for a specification array of length exactly 1, the sole element is a
broadcast filter: the next path segment is consumed without checking its
value and resolution recurses into the sole element; concretely, with spec
`{"a": [CMD]}` and data `{"a": ["x","y","z"]}` every element is filtered
with CMD. -/
theorem c3_singleton_array_broadcast :
    (∀ (k : String) (ks : List String) (x : JVal),
      getFilterCommandRec (k :: ks) (JVal.arr (.cons x .nil)) =
        getFilterCommandRec ks x) ∧
    doFilter (ε := Unit)
      (JVal.obj (.cons "a"
        (.arr (.cons (.str "x") (.cons (.str "y") (.cons (.str "z") .nil)))) .nil))
      (JVal.obj (.cons "a" (.arr (.cons (.str "CMD") .nil)) .nil))
      (fun c v => Except.ok (c ++ ":" ++ v)) =
    Except.ok (JVal.obj (.cons "a"
      (.arr (.cons (.str "CMD:x") (.cons (.str "CMD:y") (.cons (.str "CMD:z") .nil)))) .nil)) :=
  ⟨fun _ _ _ => rfl, by decide⟩

/-- C9: a length-1 specification array consumes the next path segment and
recurses into its sole element even when that segment is an object `Key`
(quoted in the path encoding) rather than an array `Index`; with spec
`{"a": [CMD]}` and data `{"a": {"k": "v"}}` the leaf at `a.k` is filtered
with CMD. -/
theorem c9_broadcast_consumes_key_segment :
    (∀ (k : String) (ks : List String) (x : JVal),
      getFilterCommandRec (("'" ++ k ++ "'") :: ks) (JVal.arr (.cons x .nil)) =
        getFilterCommandRec ks x) ∧
    doFilter (ε := Unit)
      (JVal.obj (.cons "a" (.obj (.cons "k" (.str "v") .nil)) .nil))
      (JVal.obj (.cons "a" (.arr (.cons (.str "CMD") .nil)) .nil))
      (fun c v => Except.ok (c ++ ":" ++ v)) =
    Except.ok (JVal.obj (.cons "a" (.obj (.cons "k" (.str "CMD:v") .nil)) .nil)) :=
  ⟨fun _ _ _ => rfl, by decide⟩

/-- C10: the path-segment encoding is not injective: paths are built as one
bracket-quoted string and re-split on `[` and `]`, so a key containing those
characters is seen by the resolver as several segments.  With data
`{"']['b": "v"}` the built path is `['']['b']`, split into the two segments
`''` and `'b'`, so the leaf is filtered by the spec `{"": {"b": CMD}}` as if
its path were `Key("")` then `Key("b")`. -/
theorem c10_bracket_key_not_injective :
    fieldsFunc "['']['b']" isBracket = ["''", "'b'"] ∧
    getFilterCommand "['']['b']"
      (JVal.obj (.cons "" (.obj (.cons "b" (.str "CMD") .nil)) .nil)) = some "CMD" ∧
    doFilter (ε := Unit)
      (JVal.obj (.cons "']['b" (.str "v") .nil))
      (JVal.obj (.cons "" (.obj (.cons "b" (.str "CMD") .nil)) .nil))
      (fun c v => Except.ok (c ++ ":" ++ v)) =
    Except.ok (JVal.obj (.cons "']['b" (.str "CMD:v") .nil)) :=
  ⟨by decide, by decide, by decide⟩

/-- C2 counterexample: with specification `{"a": ["C0","C1"]}` and data
`{"a": {"1": "v"}}`, the path segment after `a` is the object key `"1"`, not
an array `Index`, yet resolution succeeds (the quoted key parses as the
number 1 after trimming) and the leaf is filtered with `C1` — refuting
"resolution succeeds only when the next path segment is an Index (an array
position in the data tree)". -/
theorem c2_counterexample_key_segment_matches :
    doFilter (ε := Unit)
      (JVal.obj (.cons "a" (.obj (.cons "1" (.str "v") .nil)) .nil))
      (JVal.obj (.cons "a" (.arr (.cons (.str "C0") (.cons (.str "C1") .nil))) .nil))
      (fun c v => Except.ok (c ++ ":" ++ v)) =
    Except.ok (JVal.obj (.cons "a" (.obj (.cons "1" (.str "C1:v") .nil)) .nil)) := by
  decide

theorem getFilterCommandRec_arr_multi (s : JArr) (h1 : 1 < s.length)
    (k : String) (ks : List String) :
    getFilterCommandRec (k :: ks) (JVal.arr s) =
      (match parseInt32 (trimQuotes k) with
       | some i =>
         if 0 ≤ i then
           match s.get? i.toNat with
           | some v => getFilterCommandRec ks v
           | none => none
         else none
       | none => none) := by
  cases s with
  | nil => simp [JArr.length] at h1
  | cons x rest =>
    cases rest with
    | nil => simp [JArr.length] at h1
    | cons y r2 => rfl

/-- C2 (amended): for a specification array of length greater than 1,
resolution succeeds exactly when the next path segment, stripped of quote
characters, parses as a nonnegative in-bounds 32-bit index — every in-bounds
`Index` segment qualifies, but so does an object `Key` whose text is numeric
(quoted or not) — and recursion continues into the element at exactly that
index; a segment that parses to a negative or out-of-range value, or does
not parse at all, yields no match.  In particular, with spec
`{"a": [CMD0, CMD1]}` and data `{"a": ["p","q","r"]}`, element 0 is filtered
with CMD0, element 1 with CMD1, and element 2 is left unfiltered. -/
theorem c2_array_positional_amended :
    (∀ (s : JArr), 1 < s.length → ∀ (k : String) (ks : List String),
      (∀ i : Int, parseInt32 (trimQuotes k) = some i → 0 ≤ i → i.toNat < s.length →
        ∃ v, s.get? i.toNat = some v ∧
          getFilterCommandRec (k :: ks) (JVal.arr s) = getFilterCommandRec ks v) ∧
      (∀ i : Int, parseInt32 (trimQuotes k) = some i → i < 0 →
        getFilterCommandRec (k :: ks) (JVal.arr s) = none) ∧
      (∀ i : Int, parseInt32 (trimQuotes k) = some i → 0 ≤ i → s.length ≤ i.toNat →
        getFilterCommandRec (k :: ks) (JVal.arr s) = none) ∧
      (parseInt32 (trimQuotes k) = none →
        getFilterCommandRec (k :: ks) (JVal.arr s) = none)) ∧
    (∀ (s : JArr), 1 < s.length → ∀ (i : Nat) (ks : List String),
      i < s.length → (i : Int) ≤ int32Max →
      ∃ v, s.get? i = some v ∧
        getFilterCommandRec (natToString i :: ks) (JVal.arr s) =
          getFilterCommandRec ks v) ∧
    (∀ (s : JArr), 1 < s.length → ∀ (i : Nat) (ks : List String), s.length ≤ i →
      getFilterCommandRec (natToString i :: ks) (JVal.arr s) = none) ∧
    doFilter (ε := Unit)
      (JVal.obj (.cons "a"
        (.arr (.cons (.str "p") (.cons (.str "q") (.cons (.str "r") .nil)))) .nil))
      (JVal.obj (.cons "a" (.arr (.cons (.str "CMD0") (.cons (.str "CMD1") .nil))) .nil))
      (fun c v => Except.ok (c ++ ":" ++ v)) =
    Except.ok (JVal.obj (.cons "a"
      (.arr (.cons (.str "CMD0:p") (.cons (.str "CMD1:q") (.cons (.str "r") .nil)))) .nil)) := by
  refine ⟨?_, ?_, ?_, by decide⟩
  · intro s h1 k ks
    refine ⟨?_, ?_, ?_, ?_⟩
    · intro i hp hi hlt
      rcases JArr.get?_isSome s i.toNat hlt with ⟨v, hv⟩
      refine ⟨v, hv, ?_⟩
      simp only [getFilterCommandRec_arr_multi s h1 k ks, hp]
      rw [if_pos hi]
      simp [hv]
    · intro i hp hineg
      simp only [getFilterCommandRec_arr_multi s h1 k ks, hp]
      rw [if_neg (by omega : ¬ (0 : Int) ≤ i)]
    · intro i hp hi hge
      simp only [getFilterCommandRec_arr_multi s h1 k ks, hp]
      rw [if_pos hi]
      simp [JArr.get?_none s i.toNat hge]
    · intro hp
      simp only [getFilterCommandRec_arr_multi s h1 k ks, hp]
  · intro s h1 i ks hi hmax
    rcases JArr.get?_isSome s i hi with ⟨v, hv⟩
    refine ⟨v, hv, ?_⟩
    simp only [getFilterCommandRec_arr_multi s h1 (natToString i) ks,
      trimQuotes_natToString, parseInt32_natToString]
    rw [if_pos hmax]
    simp [hv]
  · intro s h1 i ks hi
    by_cases hmax : (i : Int) ≤ int32Max
    · simp only [getFilterCommandRec_arr_multi s h1 (natToString i) ks,
        trimQuotes_natToString, parseInt32_natToString]
      rw [if_pos hmax]
      simp [JArr.get?_none s i hi]
    · simp only [getFilterCommandRec_arr_multi s h1 (natToString i) ks,
        trimQuotes_natToString, parseInt32_natToString]
      rw [if_neg hmax]

/-- C2 witness: the general segment characterization applied at the quoted
numeric `Key` segment `'1'` against the two-element specification array
`["C0","C1"]`: the segment matches and resolution continues into element 1. -/
theorem c2_array_positional_amended_witness :
    ∃ v, (JArr.cons (JVal.str "C0") (JArr.cons (JVal.str "C1") JArr.nil)).get?
        (Int.toNat 1) = some v ∧
      getFilterCommandRec ["'1'"]
        (JVal.arr (JArr.cons (JVal.str "C0") (JArr.cons (JVal.str "C1") JArr.nil))) =
      getFilterCommandRec [] v :=
  ((c2_array_positional_amended.1
      (JArr.cons (JVal.str "C0") (JArr.cons (JVal.str "C1") JArr.nil))
      (by decide) "'1'" []).1) 1 (by decide) (by decide) (by decide)

/-- C4: whenever every call to the filter-execution collaborator succeeds
(returning `f command value`), the filtering operation succeeds and returns
the input tree with every matched `String` leaf replaced by the string the
collaborator returned — including when the root of the data tree is itself a
matching `String` (the universally quantified `t` covers `JVal.str`). -/
theorem c4_success_is_mapped_tree {ε : Type} (t filters : JVal)
    (af : String → String → Except ε String) (f : String → String → String)
    (haf : ∀ c v, af c v = Except.ok (f c v)) :
    doFilter t filters af = Except.ok (mapLeavesWithPath
      (fun p s =>
        match getFilterCommand p filters with
        | some c => f c s
        | none => s) t "") := by
  rw [doFilter, traverse]
  apply traverseWithPath_allOk
  intro p v
  cases h : getFilterCommand p filters with
  | some c => simp [doRunFilter, h, haf]
  | none => simp [doRunFilter, h]

/-- C4 witness: a root-level string data tree against a bare-string
specification, with a concrete always-succeeding collaborator. -/
theorem c4_success_is_mapped_tree_witness :
    doFilter (ε := Unit) (JVal.str "x") (JVal.str "F")
      (fun c v => Except.ok (c ++ ":" ++ v)) =
    Except.ok (mapLeavesWithPath
      (fun p s =>
        match getFilterCommand p (JVal.str "F") with
        | some c => c ++ ":" ++ s
        | none => s) (JVal.str "x") "") :=
  c4_success_is_mapped_tree (JVal.str "x") (JVal.str "F")
    (fun c v => Except.ok (c ++ ":" ++ v)) (fun c v => c ++ ":" ++ v)
    (fun _ _ => rfl)

/-- C5: if the collaborator fails on some leaf, the whole filtering
operation returns that first error, and the collaborator calls made are
exactly those up to and including the first failing one in visitation
order: the call log decomposes as successful calls followed by the single
failing call, with nothing after it. -/
theorem c5_fail_fast {ε : Type} (t filters : JVal)
    (af : String → String → Except ε String)
    (log : List (String × String)) (e : ε)
    (h : doFilterLog t filters af = (log, Except.error e)) :
    doFilter t filters af = Except.error e ∧
    ∃ pre c s, afCallsOf filters log = pre ++ [(c, s)] ∧
      (∀ q ∈ pre, ∃ w, af q.1 q.2 = Except.ok w) ∧
      af c s = Except.error e := by
  rw [doFilterLog] at h
  have hsnd := traverseLogVal_snd (fun p v => doRunFilter p v filters af) t ""
  constructor
  · rw [doFilter, traverse, ← hsnd, h]
  · rcases traverseLogVal_error_calls _ t "" log e h with ⟨pre0, p, s, hdec, hpre, hfail⟩
    cases hc : getFilterCommand p filters with
    | none =>
      rw [doRunFilter, hc] at hfail
      cases hfail
    | some c =>
      simp only [doRunFilter, hc] at hfail
      refine ⟨afCallsOf filters pre0, c, s, ?_, ?_, hfail⟩
      · rw [hdec]
        simp only [afCallsOf, List.filterMap_append, List.filterMap_cons,
          List.filterMap_nil, hc, Option.map_some']
      · intro q hq
        rcases List.mem_filterMap.mp hq with ⟨pr, hpr, hmap⟩
        cases hcc : getFilterCommand pr.1 filters with
        | none => rw [hcc] at hmap; cases hmap
        | some c2 =>
          rw [hcc] at hmap
          cases hmap
          rcases hpre pr hpr with ⟨w, hw⟩
          simp only [doRunFilter, hcc] at hw
          exact ⟨w, hw⟩

/-- C5 witness: a three-leaf array under a uniform bare-string
specification, failing on the second leaf: the operation returns that error
and exactly two collaborator calls were made (the successful first and the
failing second), not three. -/
theorem c5_fail_fast_witness :
    doFilter (ε := Nat)
      (JVal.arr (.cons (.str "x") (.cons (.str "bad") (.cons (.str "z") .nil))))
      (JVal.str "F")
      (fun c v => if v = "bad" then Except.error 0 else Except.ok (c ++ ":" ++ v)) =
      Except.error 0 ∧
    ∃ pre c s,
      afCallsOf (JVal.str "F") [("[0]", "x"), ("[1]", "bad")] = pre ++ [(c, s)] ∧
      (∀ q ∈ pre, ∃ w,
        (fun c v => if v = "bad" then Except.error 0 else Except.ok (c ++ ":" ++ v)) q.1 q.2 =
          Except.ok w) ∧
      (fun c v => if v = "bad" then Except.error 0 else Except.ok (c ++ ":" ++ v)) c s =
        Except.error 0 :=
  c5_fail_fast
    (JVal.arr (.cons (.str "x") (.cons (.str "bad") (.cons (.str "z") .nil))))
    (JVal.str "F")
    (fun c v => if v = "bad" then Except.error 0 else Except.ok (c ++ ":" ++ v))
    [("[0]", "x"), ("[1]", "bad")] 0 (by decide)

/-- C6: a string leaf whose path resolves to no command (absent key,
out-of-range index, or a non-`String` specification node when the path is
exhausted all yield `getFilterCommand = none`) is returned byte-identical
and never produces an error, whatever the collaborator is. -/
theorem c6_no_match_is_identity {ε : Type} (path value : String) (filters : JVal)
    (af : String → String → Except ε String)
    (h : getFilterCommand path filters = none) :
    doRunFilter path value filters af = Except.ok value := by
  simp [doRunFilter, h]

/-- C6 witness: the key `a` is absent from the specification `{"b": "F"}`,
so the leaf value comes back unchanged inside `Except.ok`. -/
theorem c6_no_match_is_identity_witness :
    doRunFilter (ε := Unit) "['a']" "payload"
      (JVal.obj (.cons "b" (.str "F") .nil))
      (fun c v => Except.ok (c ++ ":" ++ v)) = Except.ok "payload" :=
  c6_no_match_is_identity "['a']" "payload"
    (JVal.obj (.cons "b" (.str "F") .nil))
    (fun c v => Except.ok (c ++ ":" ++ v)) (by decide)

/-- C7: `Number`, `Boolean` and `Null` nodes are never passed to the
collaborator and appear unchanged in the result: a successful traversal
leaves everything but the contents of string leaves unchanged
(`maskStrings`-equal trees agree on all non-string content), and on a bare
`Number` / `Boolean` / `Null` the traversal makes no visitor call at all and
returns the node unchanged. -/
theorem c7_non_string_nodes_unchanged {ε : Type}
    (visit : String → String → Except ε String) :
    (∀ (t t2 : JVal) (path : String),
      traverseWithPath visit t path = Except.ok t2 → maskStrings t2 = maskStrings t) ∧
    (∀ (n : Int) (path : String),
      traverseLogVal visit (JVal.num n) path = ([], Except.ok (JVal.num n))) ∧
    (∀ (b : Bool) (path : String),
      traverseLogVal visit (JVal.bool b) path = ([], Except.ok (JVal.bool b))) ∧
    (∀ (path : String),
      traverseLogVal visit JVal.null path = ([], Except.ok JVal.null)) :=
  ⟨fun t t2 path h => traverseWithPath_mask visit t path t2 h,
   fun _ _ => rfl, fun _ _ => rfl, fun _ => rfl⟩

/-- C7 witness: a mixed object whose string leaf changes while its number
leaf survives; the mask of the output equals the mask of the input, and the
bare-number traversal is call-free and unchanged. -/
theorem c7_non_string_nodes_unchanged_witness :
    maskStrings (JVal.obj (.cons "a" (.str "F:v") (.cons "n" (.num 3) .nil))) =
      maskStrings (JVal.obj (.cons "a" (.str "v") (.cons "n" (.num 3) .nil))) ∧
    traverseLogVal (ε := Unit) (fun _ v => Except.ok ("F:" ++ v))
      (JVal.num 3) "" = ([], Except.ok (JVal.num 3)) :=
  ⟨(c7_non_string_nodes_unchanged (ε := Unit) (fun _ v => Except.ok ("F:" ++ v))).1
      (JVal.obj (.cons "a" (.str "v") (.cons "n" (.num 3) .nil)))
      (JVal.obj (.cons "a" (.str "F:v") (.cons "n" (.num 3) .nil))) "" (by decide),
   (c7_non_string_nodes_unchanged (ε := Unit) (fun _ v => Except.ok ("F:" ++ v))).2.1 3 ""⟩

/-- C8: the specification tree is read-only.  In the state-passing rendering
of the resolver — where every operation the Go code performs on the
specification is made explicit and updated subtrees are written back — the
specification returned after resolution is exactly the one passed in, for
every path and every specification; the resolver is the only code that
touches the specification during a filtering pass. -/
theorem c8_specification_never_mutated :
    ∀ (keys : List String) (filters : JVal),
      getFilterCommandRecSt keys filters = (getFilterCommandRec keys filters, filters) :=
  getFilterCommandRecSt_eq

end Jsonfilter
